import Mathlib

/-!
Shallow embedding of `utilities/compute_fraglen.py` (fragment-length model
builder) and verification of its specification.

Modelling conventions:
* A Python number is either an `int` (embedded as `ℤ`) or a `float`
  (embedded exactly as `ℚ`; every float produced by this program is a
  quotient of machine integers, so exact rational arithmetic refines the
  floating-point behaviour).
* Python true division `/` always yields a float and raises on a zero
  divisor, so it is `Option`-valued here.
* List indexing that can raise `IndexError` is embedded with `·[·]?`;
  functions that can raise are `Option`-valued.
* `pysam.AlignmentFile` either raises `ValueError` (unrecognized format) or
  yields a stream of records; the stream is embedded as a list of the record
  fields the program reads.
-/

namespace ComputeFraglen

/-- A Python numeric value: an `int` or a `float` (exact rational model). -/
inductive PyNum where
  | int : ℤ → PyNum
  | float : ℚ → PyNum
  deriving DecidableEq

/-- Numeric value of a Python number (Python compares and mixes
`int`/`float` by value). -/
def toRat : PyNum → ℚ
  | .int n => (n : ℚ)
  | .float q => q

/-- Python `+`: `int + int` is an `int`, any float operand makes a float. -/
def pyAdd : PyNum → PyNum → PyNum
  | .int a, .int b => .int (a + b)
  | a, b => .float (toRat a + toRat b)

/-- Python `-` on numbers. -/
def pySub : PyNum → PyNum → PyNum
  | .int a, .int b => .int (a - b)
  | a, b => .float (toRat a - toRat b)

/-- Python `*` on numbers. -/
def pyMul : PyNum → PyNum → PyNum
  | .int a, .int b => .int (a * b)
  | a, b => .float (toRat a * toRat b)

/-- Python true division `a / b`: always a float; `ZeroDivisionError`
(modelled as `none`) when the divisor is zero. -/
def pyDiv (a b : PyNum) : Option PyNum :=
  if toRat b = 0 then none else some (.float (toRat a / toRat b))

/-- Python `abs` on numbers. -/
def pyAbs : PyNum → PyNum
  | .int n => .int |n|
  | .float q => .float |q|

/-- Python numeric comparison `a <= b` (by value, across `int`/`float`). -/
def pyLe (a b : PyNum) : Prop := toRat a ≤ toRat b

instance : DecidableRel pyLe := fun a b =>
  inferInstanceAs (Decidable (toRat a ≤ toRat b))

/-- Python `sorted` on numbers: stable ascending sort by numeric value. -/
def pySorted (l : List PyNum) : List PyNum :=
  List.insertionSort pyLe l

/--
`median(datalist)` from the source: with `midpoint = len(datalist)//2`,
returns `(datalist[midpoint] + datalist[midpoint-1])/2` for even length and
`datalist[midpoint]` for odd length.  On the empty list the even branch's
access `datalist[0]` raises `IndexError`, hence `none`.  (Python's negative
index `-1` in `datalist[midpoint-1]` is unreachable for even nonempty
lists, since then `midpoint ≥ 1`; on the empty list the first access
already fails, so `Nat` subtraction is faithful here.)
-/
def median (datalist : List PyNum) : Option PyNum :=
  let midpoint := datalist.length / 2
  if datalist.length % 2 = 0 then
    match datalist[midpoint]?, datalist[midpoint - 1]? with
    | some a, some b => pyDiv (pyAdd a b) (.int 2)
    | _, _ => none
  else
    datalist[midpoint]?

/--
`median_absolute_deviation(datalist)` from the source: takes
`my_median = median(datalist)` (on the list **as given**, without sorting),
forms the absolute deviations, and returns the median of the deviations
sorted ascending.
-/
def median_absolute_deviation (datalist : List PyNum) : Option PyNum := do
  let my_median ← median datalist
  let deviations := datalist.map (fun item => pyAbs (pySub item my_median))
  median (pySorted deviations)

/--
The specification's wording of the median-absolute-deviation computation
(for the refinement comparison): it takes "the median `m` of the sequence",
i.e. the median of the data — the sequence sorted ascending — for input in
any order, then the absolute deviations, then the median of the sorted
deviation sequence.
-/
def madSpec (datalist : List PyNum) : Option PyNum := do
  let m ← median (pySorted datalist)
  median (pySorted (datalist.map (fun item => pyAbs (pySub item m))))

/-- A reference id as the program compares it: pysam exposes integer ids,
and the source additionally compares against the literal `'='` (a
one-character string in Python, embedded as a character). -/
inductive RefId where
  | rid : ℤ → RefId
  | str : Char → RefId
  deriving DecidableEq

/-- The fields of a pysam aligned segment that `count_frags` reads. -/
structure AlignedSegment where
  flag : ℕ
  mapping_quality : ℕ
  template_length : ℤ
  reference_id : RefId
  next_reference_id : RefId
  deriving DecidableEq

/-- Only consider reads mapped with more than this mapping quality
(`filter_mapqual` in the source). -/
def filter_mapqual : ℕ := 10

/--
The record loop of `count_frags`: for each record take
`my_template_length = abs(item.template_length)` and append it when
`item.flag & 1 and item.flag & 64 and item.mapping_quality > filter_mapqual`
and `item.next_reference_id == '=' or item.next_reference_id ==
item.reference_id` (Python `&` truthiness is "nonzero").
-/
def countLoop : List AlignedSegment → List ℤ
  | [] => []
  | item :: rest =>
    let my_template_length := |item.template_length|
    if item.flag &&& 1 ≠ 0 ∧ item.flag &&& 64 ≠ 0 ∧
        filter_mapqual < item.mapping_quality then
      if item.next_reference_id = RefId.str '=' ∨
          item.next_reference_id = item.reference_id then
        my_template_length :: countLoop rest
      else countLoop rest
    else countLoop rest

/--
`count_frags(file)` from the source.  Opening the file either raises
`ValueError` (unrecognized format), on which the function prints the cause
and calls `sys.exit(1)` — embedded as `Except.error 1`, the exit status —
or yields the record stream, on which the collected absolute template
lengths are returned sorted ascending.
-/
def count_frags (file : Except Unit (List AlignedSegment)) :
    Except ℕ (List ℤ) :=
  match file with
  | .error _ => .error 1
  | .ok records => .ok (List.insertionSort (· ≤ ·) (countLoop records))

/-- Only consider fragment lengths with at least this many supporting read
pairs (`FILTER_MINREADS` in the source). -/
def FILTER_MINREADS : ℤ := 100

/-- Median-deviation multiplier (`FILTER_MEDDEV_M` in the source). -/
def FILTER_MEDDEV_M : ℤ := 10

/--
The accumulation loop of `compute_probs` over the distinct values: for each
`item` with `0 < item <= med + FILTER_MEDDEV_M * mad`, compute
`data_count = datalist.count(item)` and, when
`data_count >= FILTER_MINREADS`, append `item` to `values` and `data_count`
to `probabilities`.  `bound` is the already-computed
`med + FILTER_MEDDEV_M * mad`.
-/
def probLoop (datalist : List ℤ) (bound : PyNum) : List ℤ → List ℤ × List ℤ
  | [] => ([], [])
  | item :: rest =>
    if 0 < item ∧ (item : ℚ) ≤ toRat bound then
      let data_count : ℤ := datalist.count item
      if FILTER_MINREADS ≤ data_count then
        let vp := probLoop datalist bound rest
        (item :: vp.1, data_count :: vp.2)
      else probLoop datalist bound rest
    else probLoop datalist bound rest

/--
The comprehension `[n / count_sum for n in probabilities]`: the divisions
are evaluated left to right, one per element, and the first
`ZeroDivisionError` aborts — in particular over an empty list no division
is ever executed.
-/
def divList (count_sum : PyNum) : List ℤ → Option (List PyNum)
  | [] => some []
  | n :: rest => do
    let p ← pyDiv (.int n) count_sum
    let ps ← divList count_sum rest
    return p :: ps

/--
`compute_probs(datalist)` from the source.  The argument is the list of
fragment lengths (Python ints).  `list(set(datalist))` is embedded as
`datalist.dedup`; set-iteration order is unspecified in Python and none of
the verified properties depend on it.  `count_sum = float(sum(...))`, and
the final comprehension divides every count by `count_sum`.
-/
def compute_probs (datalist : List ℤ) : Option (List ℤ × List PyNum) := do
  let med ← median (datalist.map PyNum.int)
  let mad ← median_absolute_deviation (datalist.map PyNum.int)
  let bound := pyAdd med (pyMul (.int FILTER_MEDDEV_M) mad)
  let vp := probLoop datalist bound datalist.dedup
  let count_sum : PyNum := .float ((vp.2.sum : ℤ) : ℚ)
  let probabilities ← divList count_sum vp.2
  return (vp.1, probabilities)

/-- The two ways a run of the tool terminates abnormally. -/
inductive PipeError where
  | badFormat : PipeError
  | uncaught : PipeError
  deriving DecidableEq

/--
The pipeline of `main` after argument parsing:
`all_tlens = count_frags(input)` then
`compute_probs(all_tlens)` then serialization of the resulting pair.
A parse failure is the explicit `sys.exit(1)` (`PipeError.badFormat`); an
exception escaping `compute_probs` (only possible on an empty length list)
is an uncaught crash (`PipeError.uncaught`).
-/
def main_model (file : Except Unit (List AlignedSegment)) :
    Except PipeError (List ℤ × List PyNum) :=
  match count_frags file with
  | .error _ => .error .badFormat
  | .ok all_tlens =>
    match compute_probs all_tlens with
    | some r => .ok r
    | none => .error .uncaught

/-! ### Derived specification-side notions -/

/-- The deviation-filter upper bound `med + FILTER_MEDDEV_M * mad`. -/
def fragBound (med mad : PyNum) : PyNum :=
  pyAdd med (pyMul (.int FILTER_MEDDEV_M) mad)

/-- The retention test of `compute_probs`, as a boolean predicate:
`0 < item <= bound` and `datalist.count(item) >= FILTER_MINREADS`. -/
def keepB (datalist : List ℤ) (bound : PyNum) (item : ℤ) : Bool :=
  decide (0 < item ∧ (item : ℚ) ≤ toRat bound) &&
    decide (FILTER_MINREADS ≤ (datalist.count item : ℤ))

/-- The retained distinct values of a length list, given the bound. -/
def retained (datalist : List ℤ) (bound : PyNum) : List ℤ :=
  datalist.dedup.filter (keepB datalist bound)

/-- The support counts of the retained values, in the same order. -/
def retainedCounts (datalist : List ℤ) (bound : PyNum) : List ℤ :=
  (retained datalist bound).map (fun v => (datalist.count v : ℤ))

/-! ### Basic lemmas about the numeric model -/

theorem toRat_int (n : ℤ) : toRat (.int n) = (n : ℚ) := rfl

theorem toRat_pyAdd (a b : PyNum) : toRat (pyAdd a b) = toRat a + toRat b := by
  cases a <;> cases b <;> simp [pyAdd, toRat]

theorem toRat_pySub (a b : PyNum) : toRat (pySub a b) = toRat a - toRat b := by
  cases a <;> cases b <;> simp [pySub, toRat]

theorem toRat_pyMul (a b : PyNum) : toRat (pyMul a b) = toRat a * toRat b := by
  cases a <;> cases b <;> simp [pyMul, toRat]

theorem toRat_fragBound (med mad : PyNum) :
    toRat (fragBound med mad) = toRat med + 10 * toRat mad := by
  rw [fragBound, toRat_pyAdd, toRat_pyMul, toRat_int]
  norm_num [FILTER_MEDDEV_M]

/-! ### Lemmas about `median` -/

theorem median_odd (S : List PyNum) (h : S.length % 2 = 1) :
    median S = S[S.length / 2]? := by
  simp only [median]
  rw [if_neg (by omega)]

theorem median_even (S : List PyNum) (h2 : S.length % 2 = 0) (hne : S ≠ []) :
    ∃ a b, S[S.length / 2]? = some a ∧ S[S.length / 2 - 1]? = some b ∧
      median S = some (.float ((toRat a + toRat b) / 2)) := by
  have hlen : 0 < S.length := List.length_pos.mpr hne
  have h1 : S.length / 2 < S.length := Nat.div_lt_self hlen (by omega)
  have h0 : S.length / 2 - 1 < S.length := by omega
  refine ⟨S[S.length / 2], S[S.length / 2 - 1], ?_, ?_, ?_⟩
  · exact List.getElem?_eq_getElem h1
  · exact List.getElem?_eq_getElem h0
  · simp only [median, if_pos h2, List.getElem?_eq_getElem h1,
      List.getElem?_eq_getElem h0]
    have h2z : toRat (PyNum.int 2) ≠ 0 := by norm_num [toRat]
    rw [pyDiv, if_neg h2z, toRat_pyAdd, toRat_int]
    norm_num

theorem median_isSome (S : List PyNum) (hne : S ≠ []) :
    ∃ m, median S = some m := by
  rcases Nat.even_or_odd S.length with h | h
  · obtain ⟨a, b, -, -, hm⟩ :=
      median_even S (Nat.even_iff.mp h) hne
    exact ⟨_, hm⟩
  · have hlen : 0 < S.length := List.length_pos.mpr hne
    have h1 : S.length / 2 < S.length := Nat.div_lt_self hlen (by omega)
    refine ⟨S[S.length / 2], ?_⟩
    rw [median_odd S (Nat.odd_iff.mp h)]
    exact List.getElem?_eq_getElem h1

theorem length_pySorted (l : List PyNum) : (pySorted l).length = l.length :=
  (List.perm_insertionSort pyLe l).length_eq

theorem median_absolute_deviation_isSome (S : List PyNum) (hne : S ≠ []) :
    ∃ m, median_absolute_deviation S = some m := by
  obtain ⟨m, hm⟩ := median_isSome S hne
  have hdev : pySorted (S.map (fun item => pyAbs (pySub item m))) ≠ [] := by
    have : (pySorted (S.map (fun item => pyAbs (pySub item m)))).length =
        S.length := by
      rw [length_pySorted, List.length_map]
    intro hcon
    rw [hcon] at this
    exact hne (List.length_eq_zero.mp this.symm)
  obtain ⟨d, hd⟩ := median_isSome _ hdev
  exact ⟨d, by simp [median_absolute_deviation, hm, hd]⟩

/-! ### Lemmas about `compute_probs` -/

theorem probLoop_eq (datalist : List ℤ) (bound : PyNum) (items : List ℤ) :
    probLoop datalist bound items =
      (items.filter (keepB datalist bound),
        (items.filter (keepB datalist bound)).map
          (fun v => (datalist.count v : ℤ))) := by
  induction items with
  | nil => rfl
  | cons item rest ih =>
    by_cases h1 : 0 < item ∧ (item : ℚ) ≤ toRat bound
    · by_cases h2 : FILTER_MINREADS ≤ (datalist.count item : ℤ)
      · simp [probLoop, h1, h2, ih, List.filter_cons, keepB]
      · simp [probLoop, h1, h2, ih, List.filter_cons, keepB]
    · simp [probLoop, h1, ih, List.filter_cons, keepB]

theorem divList_eq (q : ℚ) (hq : q ≠ 0) (counts : List ℤ) :
    divList (.float q) counts =
      some (counts.map (fun n : ℤ => PyNum.float ((n : ℚ) / q))) := by
  induction counts with
  | nil => rfl
  | cons n rest ih =>
    simp only [divList, pyDiv, toRat, if_neg hq, ih]
    rfl

theorem mem_retainedCounts (datalist : List ℤ) (bound : PyNum) (n : ℤ)
    (hn : n ∈ retainedCounts datalist bound) : FILTER_MINREADS ≤ n := by
  obtain ⟨v, hv, rfl⟩ := List.mem_map.mp hn
  have := (List.mem_filter.mp hv).2
  simp only [keepB, Bool.and_eq_true, decide_eq_true_eq] at this
  exact this.2

/-- `compute_probs` on a length list whose medians exist: the values are the
retained distinct values and each probability is the value's count divided
by the float of the total retained count.  (When nothing is retained, both
output lists are empty and the division is never executed.) -/
theorem compute_probs_eq (datalist : List ℤ) (med mad : PyNum)
    (hmed : median (datalist.map PyNum.int) = some med)
    (hmad : median_absolute_deviation (datalist.map PyNum.int) = some mad) :
    compute_probs datalist =
      some (retained datalist (fragBound med mad),
        (retainedCounts datalist (fragBound med mad)).map
          (fun n : ℤ => PyNum.float
            ((n : ℚ) / ((retainedCounts datalist (fragBound med mad)).sum : ℚ)))) := by
  have hb : pyAdd med (pyMul (.int FILTER_MEDDEV_M) mad) = fragBound med mad := rfl
  have hret : List.filter (keepB datalist (fragBound med mad)) datalist.dedup =
      retained datalist (fragBound med mad) := rfl
  have hrc : (retained datalist (fragBound med mad)).map
      (fun v => (datalist.count v : ℤ)) =
      retainedCounts datalist (fragBound med mad) := rfl
  simp only [compute_probs, hmed, hmad, Option.bind_eq_bind, Option.some_bind,
    probLoop_eq, hb, hret, hrc]
  rcases eq_or_ne (retainedCounts datalist (fragBound med mad)) [] with hc | hc
  · rw [hc]
    simp [divList]
  · have hpos : (0 : ℤ) < (retainedCounts datalist (fragBound med mad)).sum := by
      apply List.sum_pos
      · intro n hn
        have := mem_retainedCounts datalist (fragBound med mad) n hn
        simp only [FILTER_MINREADS] at this
        omega
      · exact hc
    have hq : ((retainedCounts datalist (fragBound med mad)).sum : ℚ) ≠ 0 := by
      exact_mod_cast hpos.ne'
    rw [divList_eq _ hq]
    rfl

theorem mem_retained (datalist : List ℤ) (bound : PyNum) (v : ℤ) :
    v ∈ retained datalist bound ↔
      0 < v ∧ (v : ℚ) ≤ toRat bound ∧ 100 ≤ datalist.count v := by
  simp only [retained, List.mem_filter, List.mem_dedup, keepB,
    Bool.and_eq_true, decide_eq_true_eq, FILTER_MINREADS]
  constructor
  · rintro ⟨-, ⟨h1, h2⟩, h3⟩
    exact ⟨h1, h2, by exact_mod_cast h3⟩
  · rintro ⟨h1, h2, h3⟩
    have hmem : v ∈ datalist := List.count_pos_iff.mp (by omega)
    exact ⟨hmem, ⟨h1, h2⟩, by exact_mod_cast h3⟩

theorem nodup_retained (datalist : List ℤ) (bound : PyNum) :
    (retained datalist bound).Nodup :=
  (List.nodup_dedup datalist).filter _

theorem length_retainedCounts (datalist : List ℤ) (bound : PyNum) :
    (retainedCounts datalist bound).length = (retained datalist bound).length :=
  List.length_map _ _

/-- Whenever the medians of a length list exist, `compute_probs` succeeds. -/
theorem compute_probs_isSome (datalist : List ℤ) (h : datalist ≠ []) :
    ∃ vp, compute_probs datalist = some vp := by
  have hne : datalist.map PyNum.int ≠ [] := by
    simpa using h
  obtain ⟨med, hmed⟩ := median_isSome _ hne
  obtain ⟨mad, hmad⟩ := median_absolute_deviation_isSome _ hne
  exact ⟨_, compute_probs_eq datalist med mad hmed hmad⟩

/-- If `compute_probs` succeeds, the two inner `median` calls succeeded. -/
theorem compute_probs_medians (datalist : List ℤ) (vp : List ℤ × List PyNum)
    (hvp : compute_probs datalist = some vp) :
    ∃ med mad, median (datalist.map PyNum.int) = some med ∧
      median_absolute_deviation (datalist.map PyNum.int) = some mad := by
  rcases hm : median (datalist.map PyNum.int) with - | med
  · rw [compute_probs, hm] at hvp
    simp at hvp
  rcases hd : median_absolute_deviation (datalist.map PyNum.int) with - | mad
  · rw [compute_probs, hm, hd] at hvp
    simp at hvp
  exact ⟨med, mad, rfl, rfl⟩

/-! ### Lemmas about `count_frags` -/

theorem countLoop_eq (recs : List AlignedSegment) :
    countLoop recs = (recs.filter (fun r =>
      decide ((r.flag &&& 1 ≠ 0 ∧ r.flag &&& 64 ≠ 0 ∧
          10 < r.mapping_quality) ∧
        (r.next_reference_id = RefId.str '=' ∨
          r.next_reference_id = r.reference_id)))).map
      (fun r => |r.template_length|) := by
  induction recs with
  | nil => rfl
  | cons item rest ih =>
    simp only [countLoop, filter_mapqual, List.filter_cons]
    by_cases h1 : item.flag &&& 1 ≠ 0 ∧ item.flag &&& 64 ≠ 0 ∧
        10 < item.mapping_quality
    · by_cases h2 : item.next_reference_id = RefId.str '=' ∨
          item.next_reference_id = item.reference_id
      · rw [if_pos h1, if_pos h2, if_pos (decide_eq_true ⟨h1, h2⟩), ih,
          List.map_cons]
      · rw [if_pos h1, if_neg h2,
          if_neg (fun hc => h2 (of_decide_eq_true hc).2), ih]
    · rw [if_neg h1, if_neg (fun hc => h1 (of_decide_eq_true hc).1), ih]

/-! ### The claims -/

/--
C1: For every non-empty length sequence, a distinct value `v` is placed in
the output values of `compute_probs` if and only if `0 < v`,
`v ≤ median + 10 * MAD` and `v` occurs at least 100 times in the original
sequence; in particular a value exactly equal to `median + 10 * MAD`
(clearing the other two thresholds) is retained and one unit above it is
excluded.
-/
theorem compute_probs_retention (datalist : List ℤ) (med mad : PyNum)
    (hmed : median (datalist.map PyNum.int) = some med)
    (hmad : median_absolute_deviation (datalist.map PyNum.int) = some mad)
    (vp : List ℤ × List PyNum) (hvp : compute_probs datalist = some vp)
    (v : ℤ) :
    (v ∈ vp.1 ↔
      0 < v ∧ (v : ℚ) ≤ toRat med + 10 * toRat mad ∧ 100 ≤ datalist.count v)
    ∧ ((v : ℚ) = toRat med + 10 * toRat mad → 0 < v →
        100 ≤ datalist.count v → v ∈ vp.1)
    ∧ ((v : ℚ) = toRat med + 10 * toRat mad + 1 → v ∉ vp.1) := by
  rw [compute_probs_eq datalist med mad hmed hmad] at hvp
  have hv1 : vp.1 = retained datalist (fragBound med mad) :=
    (congrArg Prod.fst (Option.some.inj hvp)).symm
  refine ⟨?_, fun he h0 hc => ?_, fun he => ?_⟩
  · rw [hv1, mem_retained, toRat_fragBound]
  · rw [hv1, mem_retained, toRat_fragBound]
    exact ⟨h0, le_of_eq he, hc⟩
  · rw [hv1, mem_retained, toRat_fragBound]
    rintro ⟨-, hle, -⟩
    rw [he] at hle
    linarith

set_option maxRecDepth 100000 in
/-- C1 witness: on one hundred observations of length 2 the bound is
`2 + 10 * 0 = 2` and the value 2 is retained. -/
theorem compute_probs_retention_witness :
    (2 : ℤ) ∈ (([2], [PyNum.float 1]) : List ℤ × List PyNum).1 :=
  ((compute_probs_retention (List.replicate 100 2) (.float 2) (.float 0)
      (by with_unfolding_all decide) (by with_unfolding_all decide)
      ([2], [PyNum.float 1]) (by with_unfolding_all decide) 2).1).mpr
    (by with_unfolding_all decide)

/--
C2: For every non-empty sorted sequence, `median` returns the element at
index `⌊length/2⌋` when the length is odd, and the average — always a
float — of the elements at indices `⌊length/2⌋` and `⌊length/2⌋ - 1` when
the length is even; `median([2]) == 2` preserves the int element while
`median([1,2,4,6,8,12,14,15,17,21]) == 10.0` is a float.
-/
theorem median_spec (S : List PyNum) :
    (S.length % 2 = 1 → median S = S[S.length / 2]?)
    ∧ (S ≠ [] → S.length % 2 = 0 →
        ∃ a b, S[S.length / 2]? = some a ∧ S[S.length / 2 - 1]? = some b ∧
          median S = some (.float ((toRat a + toRat b) / 2)))
    ∧ median [PyNum.int 2] = some (PyNum.int 2)
    ∧ median ([1, 2, 4, 6, 8, 12, 14, 15, 17, 21].map PyNum.int) =
        some (PyNum.float 10) :=
  ⟨median_odd S, fun hne h2 => median_even S h2 hne,
    by with_unfolding_all decide, by with_unfolding_all decide⟩

/-- C2 witness: the odd case on `[5]` and the even case on `[1, 3]`. -/
theorem median_spec_witness :
    median [PyNum.int 5] = [PyNum.int 5][0]?
    ∧ ∃ a b, [PyNum.int 1, PyNum.int 3][1]? = some a ∧
        [PyNum.int 1, PyNum.int 3][0]? = some b ∧
        median [PyNum.int 1, PyNum.int 3] =
          some (.float ((toRat a + toRat b) / 2)) :=
  ⟨(median_spec [PyNum.int 5]).1 (by decide),
    (median_spec [PyNum.int 1, PyNum.int 3]).2.1 (by decide) (by decide)⟩

/--
C3 counterexample: on the unsorted input `[0, 10, 1]` the function
`median_absolute_deviation` returns 9 — it applies the positional median
selection to the sequence as given, picking 10 — whereas the claimed
computation (absolute deviations about the median of the sequence, i.e. of
its sorted arrangement, which is 1) yields 1.
-/
theorem mad_unsorted_counterexample :
    median_absolute_deviation [PyNum.int 0, PyNum.int 10, PyNum.int 1] =
      some (PyNum.int 9)
    ∧ madSpec [PyNum.int 0, PyNum.int 10, PyNum.int 1] = some (PyNum.int 1)
    ∧ some (PyNum.int 9) ≠ some (PyNum.int 1) :=
  ⟨by with_unfolding_all decide, by with_unfolding_all decide, by decide⟩

/--
C3 (amended): For every non-empty **sorted** sequence,
`median_absolute_deviation` computes the median `m` of the sequence, then
the absolute deviation `|x - m|` of every element, then returns the median
of the sorted deviation sequence (agreeing with the spec-worded `madSpec`);
on unsorted input it instead applies the median selection to the sequence
in its given order.  The examples hold:
`median_absolute_deviation([1,2,4,6,8,12,14,15,17,21]) == 5.5` and
`median_absolute_deviation([0,2]) == 1.0`.
-/
theorem mad_sorted_spec (S : List PyNum) (hs : List.Sorted pyLe S) :
    median_absolute_deviation S = madSpec S
    ∧ median_absolute_deviation ([1, 2, 4, 6, 8, 12, 14, 15, 17, 21].map
        PyNum.int) = some (.float (11 / 2))
    ∧ median_absolute_deviation [PyNum.int 0, PyNum.int 2] =
        some (.float 1) := by
  refine ⟨?_, by with_unfolding_all decide, by with_unfolding_all decide⟩
  have hid : List.insertionSort pyLe S = S := hs.insertionSort_eq
  simp [median_absolute_deviation, madSpec, pySorted, hid]

/-- C3 witness: the sorted two-element list `[0, 2]`. -/
theorem mad_sorted_spec_witness :
    median_absolute_deviation [PyNum.int 0, PyNum.int 2] =
      madSpec [PyNum.int 0, PyNum.int 2] :=
  (mad_sorted_spec [PyNum.int 0, PyNum.int 2] (by decide)).1

/--
C4: For every non-empty length sequence whose result values list is
non-empty, the probabilities returned by `compute_probs` sum to exactly 1
in the exact rational model, each probability being a retained value's
occurrence count divided by the total retained count.
-/
theorem compute_probs_sum_to_one (datalist : List ℤ) (values : List ℤ)
    (probs : List PyNum) (hvp : compute_probs datalist = some (values, probs))
    (hne : values ≠ []) :
    (probs.map toRat).sum = 1
    ∧ probs = values.map (fun v => PyNum.float ((datalist.count v : ℚ) /
        (((values.map (fun w => (datalist.count w : ℤ))).sum : ℤ) : ℚ))) := by
  obtain ⟨med, mad, hmed, hmad⟩ :=
    compute_probs_medians datalist (values, probs) hvp
  rw [compute_probs_eq datalist med mad hmed hmad] at hvp
  have hpair := Option.some.inj hvp
  have hv : retained datalist (fragBound med mad) = values :=
    congrArg Prod.fst hpair
  have hp : (retainedCounts datalist (fragBound med mad)).map
      (fun n : ℤ => PyNum.float ((n : ℚ) /
        ((retainedCounts datalist (fragBound med mad)).sum : ℚ))) = probs :=
    congrArg Prod.snd hpair
  have hcne : retainedCounts datalist (fragBound med mad) ≠ [] := by
    intro hc
    apply hne
    rw [← hv]
    simpa [retainedCounts] using hc
  have hpos : (0 : ℤ) < (retainedCounts datalist (fragBound med mad)).sum := by
    apply List.sum_pos
    · intro n hn
      have := mem_retainedCounts datalist (fragBound med mad) n hn
      simp only [FILTER_MINREADS] at this
      omega
    · exact hcne
  have hq : ((retainedCounts datalist (fragBound med mad)).sum : ℚ) ≠ 0 := by
    exact_mod_cast hpos.ne'
  have hcast : ((retainedCounts datalist (fragBound med mad)).map
      (fun n : ℤ => (n : ℚ))).sum =
      ((retainedCounts datalist (fragBound med mad)).sum : ℚ) := by
    rw [Int.cast_list_sum]
  constructor
  · rw [← hp, List.map_map]
    show ((retainedCounts datalist (fragBound med mad)).map
      (fun n : ℤ => (n : ℚ) /
        ((retainedCounts datalist (fragBound med mad)).sum : ℚ))).sum = 1
    simp only [div_eq_mul_inv]
    rw [List.sum_map_mul_right, hcast, mul_inv_cancel₀ hq]
  · rw [← hp, ← hv]
    simp only [retainedCounts, List.map_map]
    apply List.map_congr_left
    intro v hv2
    simp only [Function.comp_apply]
    congr 1

set_option maxRecDepth 100000 in
/-- C4 witness: one hundred observations of length 2 give the single
probability `100 / 100 = 1.0`. -/
theorem compute_probs_sum_to_one_witness :
    (([PyNum.float 1] : List PyNum).map toRat).sum = 1
    ∧ [PyNum.float 1] = ([2] : List ℤ).map (fun v => PyNum.float
        (((List.replicate 100 (2 : ℤ)).count v : ℚ) /
          (((([2] : List ℤ).map (fun w =>
            ((List.replicate 100 (2 : ℤ)).count w : ℤ))).sum : ℤ) : ℚ))) :=
  compute_probs_sum_to_one (List.replicate 100 2) [2] [PyNum.float 1]
    (by with_unfolding_all decide) (by decide)

/--
C5: For every non-empty length sequence in which no value satisfies both
the deviation bound and the minimum-support threshold, `compute_probs`
returns the pair of empty sequences without raising — the division by the
zero `count_sum` is never executed, since the comprehension runs over an
empty list.
-/
theorem compute_probs_no_qualifying (datalist : List ℤ) (med mad : PyNum)
    (h : datalist ≠ [])
    (hmed : median (datalist.map PyNum.int) = some med)
    (hmad : median_absolute_deviation (datalist.map PyNum.int) = some mad)
    (hno : ∀ v ∈ datalist, ¬(0 < v ∧
        (v : ℚ) ≤ toRat med + 10 * toRat mad ∧ 100 ≤ datalist.count v)) :
    compute_probs datalist = some ([], []) := by
  have hr : retained datalist (fragBound med mad) = [] := by
    rw [List.eq_nil_iff_forall_not_mem]
    intro v hv
    rw [mem_retained, toRat_fragBound] at hv
    have h100 := hv.2.2
    have hvm : v ∈ datalist := List.count_pos_iff.mp (by omega)
    exact hno v hvm hv
  rw [compute_probs_eq datalist med mad hmed hmad, hr]
  simp [retainedCounts, hr]

/-- C5 witness: a single observation of length 1 has support 1 < 100, so
nothing qualifies and the result is the empty pair. -/
theorem compute_probs_no_qualifying_witness :
    compute_probs [1] = some ([], []) :=
  compute_probs_no_qualifying [1] (.int 1) (.int 0) (by decide)
    (by with_unfolding_all decide) (by with_unfolding_all decide)
    (by with_unfolding_all decide)

/--
C6: For every alignment-record stream, `count_frags` returns the
ascending-sorted sequence of absolute template lengths of exactly those
records that simultaneously have the paired flag bit (1) set, the
first-in-pair flag bit (64) set, mapping quality strictly greater than 10,
and a mate on the same reference (`next_reference_id` equal to the `'='`
sentinel or to `reference_id`).
-/
theorem count_frags_qualifying (recs : List AlignedSegment) :
    ∃ l, count_frags (Except.ok recs) = Except.ok l
      ∧ l.Sorted (· ≤ ·)
      ∧ l.Perm ((recs.filter (fun r =>
          decide ((r.flag &&& 1 ≠ 0 ∧ r.flag &&& 64 ≠ 0 ∧
              10 < r.mapping_quality) ∧
            (r.next_reference_id = RefId.str '=' ∨
              r.next_reference_id = r.reference_id)))).map
          (fun r => |r.template_length|)) := by
  refine ⟨List.insertionSort (· ≤ ·) (countLoop recs), rfl,
    List.sorted_insertionSort _ _, ?_⟩
  rw [← countLoop_eq]
  exact List.perm_insertionSort _ _

/--
C7: For every non-empty length sequence, the pair returned by
`compute_probs` has pairwise-distinct values and equally long value and
probability lists.
-/
theorem compute_probs_invariants (datalist : List ℤ) (h : datalist ≠ [])
    (values : List ℤ) (probs : List PyNum)
    (hvp : compute_probs datalist = some (values, probs)) :
    values.Nodup ∧ values.length = probs.length := by
  obtain ⟨med, mad, hmed, hmad⟩ :=
    compute_probs_medians datalist (values, probs) hvp
  rw [compute_probs_eq datalist med mad hmed hmad] at hvp
  have hpair := Option.some.inj hvp
  have hv : retained datalist (fragBound med mad) = values :=
    congrArg Prod.fst hpair
  have hp : (retainedCounts datalist (fragBound med mad)).map
      (fun n : ℤ => PyNum.float ((n : ℚ) /
        ((retainedCounts datalist (fragBound med mad)).sum : ℚ))) = probs :=
    congrArg Prod.snd hpair
  constructor
  · rw [← hv]
    exact nodup_retained _ _
  · rw [← hv, ← hp, List.length_map, retainedCounts, List.length_map]

set_option maxRecDepth 100000 in
/-- C7 witness: on one hundred observations of length 2 the result is
`([2], [1.0])`, with distinct values and matching lengths. -/
theorem compute_probs_invariants_witness :
    ([2] : List ℤ).Nodup ∧ ([2] : List ℤ).length = [PyNum.float 1].length :=
  compute_probs_invariants (List.replicate 100 2) (by decide)
    [2] [PyNum.float 1] (by with_unfolding_all decide)

/--
C8: For every non-empty sorted sequence `S`, `median S` lies between
`min S` and `max S` inclusive (by numeric value).
-/
theorem median_between_min_max (S : List PyNum) (hs : List.Sorted pyLe S)
    (m : PyNum) (hm : median S = some m) (lo hi : ℚ)
    (hlo : (S.map toRat).minimum = (lo : WithTop ℚ))
    (hhi : (S.map toRat).maximum = (hi : WithBot ℚ)) :
    lo ≤ toRat m ∧ toRat m ≤ hi := by
  have hb : ∀ x ∈ S, lo ≤ toRat x ∧ toRat x ≤ hi := by
    intro x hx
    have hx2 : toRat x ∈ S.map toRat := List.mem_map_of_mem _ hx
    exact ⟨List.minimum_le_of_mem hx2 hlo, List.le_maximum_of_mem hx2 hhi⟩
  have hne : S ≠ [] := by
    intro hS
    rw [hS] at hm
    rw [show median ([] : List PyNum) = none from rfl] at hm
    exact Option.noConfusion hm
  rcases Nat.even_or_odd S.length with hpar | hpar
  · obtain ⟨a, b, ha, hb2, hmed⟩ := median_even S (Nat.even_iff.mp hpar) hne
    rw [hm] at hmed
    have hmv : toRat m = (toRat a + toRat b) / 2 := by
      rw [Option.some.inj hmed]
      rfl
    have hma : a ∈ S := List.getElem?_mem ha
    have hmb : b ∈ S := List.getElem?_mem hb2
    obtain ⟨hla, hua⟩ := hb a hma
    obtain ⟨hlb, hub⟩ := hb b hmb
    rw [hmv]
    constructor <;> linarith
  · have hm2 := median_odd S (Nat.odd_iff.mp hpar)
    rw [hm] at hm2
    exact hb m (List.getElem?_mem hm2.symm)

/-- C8 witness: the sorted list `[1, 3]` has median `2.0`, between 1
and 3. -/
theorem median_between_min_max_witness :
    (1 : ℚ) ≤ toRat (PyNum.float 2) ∧ toRat (PyNum.float 2) ≤ 3 :=
  median_between_min_max [PyNum.int 1, PyNum.int 3] (by decide)
    (PyNum.float 2) (by with_unfolding_all decide) 1 3
    (by with_unfolding_all decide) (by with_unfolding_all decide)

/--
C9: If the alignment file is not recognized/parseable, `count_frags`
terminates the process with exit status 1; on a parseable stream it always
returns a result, and in the whole pipeline the status-1 termination
happens exactly when the input format is unrecognized.
-/
theorem count_frags_unrecognized_format :
    (∀ e : Unit, count_frags (Except.error e) = Except.error 1)
    ∧ (∀ recs : List AlignedSegment,
        ∃ l, count_frags (Except.ok recs) = Except.ok l)
    ∧ (∀ file : Except Unit (List AlignedSegment),
        main_model file = Except.error PipeError.badFormat ↔
          file = Except.error ()) := by
  refine ⟨fun e => rfl, fun recs => ⟨_, rfl⟩, fun file => ?_⟩
  cases file with
  | error e => simp [main_model, count_frags]
  | ok recs =>
    rcases hcp : compute_probs
        (List.insertionSort (· ≤ ·) (countLoop recs)) with - | r <;>
      simp [main_model, count_frags, hcp]

/--
C10: For the empty sequence, `median` yields no value, and therefore
`compute_probs` applied to an empty length sequence also fails rather than
returning `([], [])`; the empty-distribution result is only produced from a
non-empty input sequence, on which `compute_probs` always succeeds.
-/
theorem empty_sequence_fails :
    median ([] : List PyNum) = none
    ∧ compute_probs ([] : List ℤ) = none
    ∧ ∀ datalist : List ℤ, datalist ≠ [] →
        ∃ vp, compute_probs datalist = some vp :=
  ⟨rfl, rfl, fun datalist h => compute_probs_isSome datalist h⟩

/-- C10 witness: `compute_probs` succeeds on the non-empty list `[5]`. -/
theorem empty_sequence_fails_witness :
    ∃ vp, compute_probs [5] = some vp :=
  empty_sequence_fails.2.2 [5] (by decide)

end ComputeFraglen
